import Mathlib

/-!
# Verification of the merkderwn scanner (`main.go`)

A shallow embedding of the single-pass Markdown/LaTeX scanner.  The scanner
state (`Conv`) mirrors the Go `Converter` struct: an immutable input sequence
of code points, a cursor, the inline-math mode flag, and the output buffer.

Go slice accesses such as `c.in[c.cursor+1]` and
`c.in[c.cursor+1 : c.cursor+1+n]` panic when the index range exceeds the
input length.  Every such access is embedded as an `Option`-valued read, and
a Go panic is modelled as the overall result `none`.  Loops are embedded by
structural recursion on a fuel parameter; every wrapper supplies
`input.length` fuel, which is enough because each loop iteration advances the
cursor by one, so the fuel bound is never the reason a `none` is produced by
a wrapper (the loops only consume one unit of fuel per one-step cursor
advance starting below `input.length`).
-/

/-- Scanner state, mirroring the Go `Converter` struct: the decoded input
(rune slice), the cursor, the `inInlineMath` flag and the output buffer.
`inputLength` is represented by `input.length`. -/
structure Conv where
  input : List Char
  cursor : Nat
  inInlineMath : Bool
  out : List Char
deriving DecidableEq, Repr

/-- Go `lookahead(n)`: the slice `c.in[c.cursor+1 : c.cursor+1+n]`.
`none` models the Go panic when `cursor+1+n` exceeds the input length. -/
def lookahead (c : Conv) (n : Nat) : Option (List Char) :=
  if c.cursor + 1 + n ≤ c.input.length then
    some ((c.input.drop (c.cursor + 1)).take n)
  else none

/-- Go `unicode.IsSpace`: the Unicode White_Space property. -/
def goIsSpace (ch : Char) : Bool :=
  let n := ch.toNat
  decide ((9 ≤ n ∧ n ≤ 13) ∨ n = 32 ∨ n = 0x85 ∨ n = 0xA0 ∨ n = 0x1680 ∨
    (0x2000 ≤ n ∧ n ≤ 0x200A) ∨ n = 0x2028 ∨ n = 0x2029 ∨ n = 0x202F ∨
    n = 0x205F ∨ n = 0x3000)

/-- The copying loop of `handleComments` (`main.go` lines 88-91): copy code
points verbatim until end of input or until the cursor stands on `-` with
`lookahead(2) = "->"`.  A `none` models the Go panic of `lookahead(2)`. -/
def commentLoop : Nat → Conv → Option Conv
  | 0, c => if c.cursor < c.input.length then none else some c
  | fuel + 1, c =>
    if h : c.cursor < c.input.length then
      let ch := c.input[c.cursor]
      if ch = '-' then
        match lookahead c 2 with
        | none => none
        | some la =>
          if la = ['-', '>'] then some c
          else commentLoop fuel { c with out := c.out ++ [ch], cursor := c.cursor + 1 }
      else commentLoop fuel { c with out := c.out ++ [ch], cursor := c.cursor + 1 }
    else some c

/-- Go `handleComments` (`main.go` lines 83-96): on `<` followed by `!--`,
copy verbatim up to the terminator, then force-append `-->` and
force-advance the cursor by 3. -/
def handleComments (c : Conv) : Option (Bool × Conv) :=
  match c.input[c.cursor]? with
  | none => none
  | some ch =>
    if ch = '<' then
      match lookahead c 3 with
      | none => none
      | some la =>
        if la = ['!', '-', '-'] then
          match commentLoop c.input.length c with
          | none => none
          | some c' =>
            some (true, { c' with out := c'.out ++ ['-', '-', '>'], cursor := c'.cursor + 3 })
        else some (false, c)
    else some (false, c)

/-- The skipping loop of `handleCDATA` (`main.go` lines 104-106): advance the
cursor (emitting nothing) until end of input or until the cursor stands on
`]` with `lookahead(2) = "]>"`. -/
def cdataLoop : Nat → Conv → Option Conv
  | 0, c => if c.cursor < c.input.length then none else some c
  | fuel + 1, c =>
    if h : c.cursor < c.input.length then
      let ch := c.input[c.cursor]
      if ch = ']' then
        match lookahead c 2 with
        | none => none
        | some la =>
          if la = [']', '>'] then some c
          else cdataLoop fuel { c with cursor := c.cursor + 1 }
      else cdataLoop fuel { c with cursor := c.cursor + 1 }
    else some c

/-- Go `handleCDATA` (`main.go` lines 99-110): on `<` followed by
`![CDATA[`, drop everything up to `]]>` (cursor force-advanced by 3,
nothing emitted). -/
def handleCDATA (c : Conv) : Option (Bool × Conv) :=
  match c.input[c.cursor]? with
  | none => none
  | some ch =>
    if ch = '<' then
      match lookahead c 8 with
      | none => none
      | some la =>
        if la = ['!', '[', 'C', 'D', 'A', 'T', 'A', '['] then
          match cdataLoop c.input.length c with
          | none => none
          | some c' => some (true, { c' with cursor := c'.cursor + 3 })
        else some (false, c)
    else some (false, c)

/-- The command-name loop of `handleLatexCommand` (`main.go` lines 130-137):
copy code points verbatim until end of input, `{`, `[`, or whitespace. -/
def commandNameLoop : Nat → Conv → Conv
  | 0, c => c
  | fuel + 1, c =>
    if h : c.cursor < c.input.length then
      let ch := c.input[c.cursor]
      if ch ≠ '{' ∧ ch ≠ '[' ∧ goIsSpace ch = false then
        commandNameLoop fuel { c with out := c.out ++ [ch], cursor := c.cursor + 1 }
      else c
    else c

/-- The parameter loop of `handleLatexCommand` (`main.go` lines 139-161):
copy bracket groups, incrementing the nesting counter on `{`/`[` and
decrementing it on `}`/`]` regardless of bracket kind; stop when the counter
is zero and the current code point opens no further group. -/
def commandParamLoop : Nat → Conv → Int → Conv
  | 0, c, _ => c
  | fuel + 1, c, nesting =>
    if h : c.cursor < c.input.length then
      let ch := c.input[c.cursor]
      if nesting = 0 ∧ ch ≠ '{' ∧ ch ≠ '[' then c
      else
        let n1 : Int := if ch = '{' ∨ ch = '[' then nesting + 1 else nesting
        let n2 : Int := if ch = '}' ∨ ch = ']' then n1 - 1 else n1
        commandParamLoop fuel { c with out := c.out ++ [ch], cursor := c.cursor + 1 } n2
    else c

/-- Go `handleLatexCommand` (`main.go` lines 124-166): optionally emit
`<!--`, copy the command name then its bracket groups, optionally emit
`-->`.  Total: every access in it is guarded by `atEof`. -/
def handleLatexCommand (c : Conv) (emitCommentBlock : Bool) : Conv :=
  let c1 := if emitCommentBlock then { c with out := c.out ++ ['<', '!', '-', '-'] } else c
  let c2 := commandNameLoop c1.input.length c1
  let c3 := commandParamLoop c2.input.length c2 0
  if emitCommentBlock then { c3 with out := c3.out ++ ['-', '-', '>'] } else c3

/-- The loop of `handleLatexBlock` (`main.go` lines 189-211): track
`\begin`/`\end` nesting; when the counter (after the update of the current
position) is zero, delegate to `handleLatexCommand` without wrapping, emit
`-->` and stop; otherwise copy one code point.  A `none` models the Go panic
of `lookahead(5)`/`lookahead(3)` on a `\` too close to the end of input. -/
def blockLoop : Nat → Conv → Int → Option Conv
  | 0, c, _ => if c.cursor < c.input.length then none else some c
  | fuel + 1, c, nesting =>
    if h : c.cursor < c.input.length then
      let ch := c.input[c.cursor]
      let upd : Option Int :=
        if ch = '\\' then
          match lookahead c 5 with
          | none => none
          | some la5 =>
            if la5 = ['b', 'e', 'g', 'i', 'n'] then some (nesting + 1)
            else
              match lookahead c 3 with
              | none => none
              | some la3 => if la3 = ['e', 'n', 'd'] then some (nesting - 1) else some nesting
        else some nesting
      match upd with
      | none => none
      | some n =>
        if n = 0 then
          let c2 := handleLatexCommand c false
          some { c2 with out := c2.out ++ ['-', '-', '>'] }
        else blockLoop fuel { c with out := c.out ++ [ch], cursor := c.cursor + 1 } n
    else some c

/-- Go `handleLatexBlock` (`main.go` lines 185-212): emit `<!--` and run the
nesting loop starting from counter 0. -/
def handleLatexBlock (c : Conv) : Option Conv :=
  blockLoop c.input.length { c with out := c.out ++ ['<', '!', '-', '-'] } 0

/-- Go `handleLatex` (`main.go` lines 112-122): when not in inline math, on
`\` whose next code point is not `\`, dispatch to the block rewriter if the
next five code points spell `begin`, else to the command rewriter. -/
def handleLatex (c : Conv) : Option (Bool × Conv) :=
  if c.inInlineMath then some (false, c)
  else
    match c.input[c.cursor]? with
    | none => none
    | some ch =>
      if ch = '\\' then
        match c.input[c.cursor + 1]? with
        | none => none
        | some nx =>
          if nx = '\\' then some (false, c)
          else
            match lookahead c 5 with
            | none => none
            | some la5 =>
              if la5 = ['b', 'e', 'g', 'i', 'n'] then
                match handleLatexBlock c with
                | none => none
                | some c' => some (true, c')
              else some (true, handleLatexCommand c true)
      else some (false, c)

/-- Go `handleInlineMath` (`main.go` lines 214-236): `\$` is emitted
literally (cursor advanced by 2); a bare `$` only toggles the mode flag
(entering when `cursor > 0`, the previous code point is a space and the flag
is off; leaving when `lookahead(1)` is a space and the flag is on) and is
not claimed.  `none` models the Go panics of `next()` and `lookahead(1)`. -/
def handleInlineMath (c : Conv) : Option (Bool × Conv) :=
  match c.input[c.cursor]? with
  | none => none
  | some ch =>
    if ch = '\\' then
      match c.input[c.cursor + 1]? with
      | none => none
      | some nx =>
        if nx = '$' then
          some (true, { c with out := c.out ++ ['\\', '$'], cursor := c.cursor + 2 })
        else some (false, c)
    else if ch = '$' then
      if 0 < c.cursor ∧ c.input[c.cursor - 1]? = some ' ' ∧ c.inInlineMath = false then
        some (false, { c with inInlineMath := true })
      else
        match lookahead c 1 with
        | none => none
        | some la =>
          if la.head? = some ' ' ∧ c.inInlineMath = true then
            some (false, { c with inInlineMath := false })
          else some (false, c)
    else some (false, c)

/-- One iteration of the dispatch loop of `Convert` (`main.go` lines
240-259): try the recognizers in their fixed order, threading the state each
returns; if none claims the position, copy one code point verbatim. -/
def convertStep (c : Conv) : Option Conv :=
  match handleComments c with
  | none => none
  | some (true, c') => some c'
  | some (false, c0) =>
    match handleCDATA c0 with
    | none => none
    | some (true, c') => some c'
    | some (false, c1) =>
      match handleInlineMath c1 with
      | none => none
      | some (true, c') => some c'
      | some (false, c2) =>
        match handleLatex c2 with
        | none => none
        | some (true, c') => some c'
        | some (false, c3) =>
          match c3.input[c3.cursor]? with
          | none => none
          | some ch => some { c3 with out := c3.out ++ [ch], cursor := c3.cursor + 1 }

/-- The dispatch loop of `Convert`: iterate `convertStep` until the cursor
reaches the end of the input. -/
def convertLoop : Nat → Conv → Option Conv
  | 0, c => if c.cursor < c.input.length then none else some c
  | fuel + 1, c =>
    if c.cursor < c.input.length then
      match convertStep c with
      | none => none
      | some c' => convertLoop fuel c'
    else some c

/-- Go `Convert` (`main.go` lines 239-262). -/
def Convert (c : Conv) : Option Conv :=
  convertLoop (c.input.length + 1) c

/-- Go `ByteArrayToConverter` (`main.go` lines 266-276): the initial scanner
state for a decoded input. -/
def ByteArrayToConverter (s : List Char) : Conv :=
  { input := s, cursor := 0, inInlineMath := false, out := [] }

/-- Go `SXMD` (`main.go` lines 278-281): the whole conversion as a function
from the decoded input to the output; `none` models a Go panic. -/
def SXMD (s : List Char) : Option (List Char) :=
  (Convert (ByteArrayToConverter s)).map Conv.out

/-- Whether `needle` occurs as a contiguous subsequence of the second list
(used to state that a span does or does not survive into the output). -/
def hasSub (needle : List Char) : List Char → Bool
  | [] => needle.isEmpty
  | a :: t => needle.isPrefixOf (a :: t) || hasSub needle t

/-- The update the loop of `handleLatexBlock` applies to its nesting counter
at position `p`: `+1` on `\begin`, `-1` on `\end`, unchanged otherwise.
It agrees with the loop whenever the loop's `lookahead(5)` is in bounds. -/
def stepNest (l : List Char) (p : Nat) (n : Int) : Int :=
  if l[p]? = some '\\' then
    if (l.drop (p + 1)).take 5 = ['b', 'e', 'g', 'i', 'n'] then n + 1
    else if (l.drop (p + 1)).take 3 = ['e', 'n', 'd'] then n - 1
    else n
  else n

/-- The value of the nesting counter of `handleLatexBlock` after scanning
`k` positions starting at `p` with initial value `n`. -/
def nestAt (l : List Char) : Nat → Int → Nat → Int
  | _, n, 0 => n
  | p, n, k + 1 => nestAt l (p + 1) (stepNest l p n) k

/-! ## Cursor and state lemmas for the individual loops and recognizers -/

theorem commentLoop_mono : ∀ (fuel : Nat) (c c' : Conv),
    commentLoop fuel c = some c' → c.cursor ≤ c'.cursor := by
  intro fuel
  induction fuel with
  | zero =>
    intro c c' h
    simp only [commentLoop] at h
    split at h
    · exact absurd h (by simp)
    · cases h; exact Nat.le_refl _
  | succ fuel ih =>
    intro c c' h
    simp only [commentLoop] at h
    split at h
    · split at h
      · rcases hla : lookahead c 2 with _ | la
        · simp only [hla] at h
          exact Option.noConfusion h
        · simp only [hla] at h
          split at h
          · cases h; exact Nat.le_refl _
          · have := ih _ _ h
            simp only at this
            omega
      · have := ih _ _ h
        simp only at this
        omega
    · cases h; exact Nat.le_refl _

theorem cdataLoop_mono : ∀ (fuel : Nat) (c c' : Conv),
    cdataLoop fuel c = some c' → c.cursor ≤ c'.cursor := by
  intro fuel
  induction fuel with
  | zero =>
    intro c c' h
    simp only [cdataLoop] at h
    split at h
    · exact absurd h (by simp)
    · cases h; exact Nat.le_refl _
  | succ fuel ih =>
    intro c c' h
    simp only [cdataLoop] at h
    split at h
    · split at h
      · rcases hla : lookahead c 2 with _ | la
        · simp only [hla] at h
          exact Option.noConfusion h
        · simp only [hla] at h
          split at h
          · cases h; exact Nat.le_refl _
          · have := ih _ _ h
            simp only at this
            omega
      · have := ih _ _ h
        simp only at this
        omega
    · cases h; exact Nat.le_refl _

theorem commandNameLoop_mono : ∀ (fuel : Nat) (c : Conv),
    c.cursor ≤ (commandNameLoop fuel c).cursor := by
  intro fuel
  induction fuel with
  | zero => intro c; simp [commandNameLoop]
  | succ fuel ih =>
    intro c
    simp only [commandNameLoop]
    split
    · split
      · have := ih { c with out := c.out ++ [c.input[c.cursor]], cursor := c.cursor + 1 }
        simp only at this
        omega
      · exact Nat.le_refl _
    · exact Nat.le_refl _

theorem commandParamLoop_mono : ∀ (fuel : Nat) (c : Conv) (n : Int),
    c.cursor ≤ (commandParamLoop fuel c n).cursor := by
  intro fuel
  induction fuel with
  | zero => intro c n; simp [commandParamLoop]
  | succ fuel ih =>
    intro c n
    simp only [commandParamLoop]
    split
    · split
      · exact Nat.le_refl _
      · refine Nat.le_trans (Nat.le_succ _) ?_
        exact ih { c with out := c.out ++ [c.input[c.cursor]], cursor := c.cursor + 1 } _
    · exact Nat.le_refl _

theorem handleLatexCommand_mono (c : Conv) (b : Bool) :
    c.cursor ≤ (handleLatexCommand c b).cursor := by
  cases b with
  | true =>
    exact Nat.le_trans
      (commandNameLoop_mono c.input.length { c with out := c.out ++ ['<', '!', '-', '-'] })
      (commandParamLoop_mono _ _ 0)
  | false =>
    exact Nat.le_trans (commandNameLoop_mono c.input.length c) (commandParamLoop_mono _ _ 0)

theorem blockLoop_mono : ∀ (fuel : Nat) (c : Conv) (n : Int) (c' : Conv),
    blockLoop fuel c n = some c' → c.cursor ≤ c'.cursor := by
  intro fuel
  induction fuel with
  | zero =>
    intro c n c' h
    simp only [blockLoop] at h
    split at h
    · exact absurd h (by simp)
    · cases h; exact Nat.le_refl _
  | succ fuel ih =>
    intro c n c' h
    simp only [blockLoop] at h
    split at h
    · split at h
      · exact Option.noConfusion h
      · split at h
        · cases h
          exact handleLatexCommand_mono c false
        · have := ih _ _ _ h
          simp only at this
          omega
    · cases h; exact Nat.le_refl _

theorem lookahead_set_out (c : Conv) (x : List Char) (n : Nat) :
    lookahead { c with out := x } n = lookahead c n := rfl

theorem commandNameLoop_progress (fuel : Nat) (c : Conv)
    (h : c.cursor < c.input.length) (hfuel : 1 ≤ fuel)
    (h1 : c.input[c.cursor] ≠ '{') (h2 : c.input[c.cursor] ≠ '[')
    (h3 : goIsSpace c.input[c.cursor] = false) :
    c.cursor < (commandNameLoop fuel c).cursor := by
  obtain ⟨m, rfl⟩ : ∃ m, fuel = m + 1 := ⟨fuel - 1, by omega⟩
  simp only [commandNameLoop]
  split
  · split
    · have := commandNameLoop_mono m
        { c with out := c.out ++ [c.input[c.cursor]], cursor := c.cursor + 1 }
      simp only at this
      omega
    · rename_i hcond
      exact absurd ⟨h1, h2, h3⟩ hcond
  · omega

theorem handleLatexCommand_progress (c : Conv) (b : Bool)
    (h : c.cursor < c.input.length)
    (h1 : c.input[c.cursor] ≠ '{') (h2 : c.input[c.cursor] ≠ '[')
    (h3 : goIsSpace c.input[c.cursor] = false) :
    c.cursor < (handleLatexCommand c b).cursor := by
  cases b with
  | true =>
    exact Nat.lt_of_lt_of_le
      (commandNameLoop_progress c.input.length
        { c with out := c.out ++ ['<', '!', '-', '-'] } h (by omega) h1 h2 h3)
      (commandParamLoop_mono _ _ 0)
  | false =>
    exact Nat.lt_of_lt_of_le
      (commandNameLoop_progress c.input.length c h (by omega) h1 h2 h3)
      (commandParamLoop_mono _ _ 0)

theorem blockLoop_succ_begin (m : Nat) (c : Conv) (n : Int)
    (hcur : c.cursor < c.input.length)
    (hch : c.input[c.cursor] = '\\')
    (hla : lookahead c 5 = some ['b', 'e', 'g', 'i', 'n'])
    (hn : n + 1 ≠ 0) :
    blockLoop (m + 1) c n =
      blockLoop m { c with out := c.out ++ ['\\'], cursor := c.cursor + 1 } (n + 1) := by
  simp [blockLoop, hcur, hch, hla, hn]

theorem handleLatexBlock_progress (c : Conv) (c' : Conv)
    (hcur : c.cursor < c.input.length)
    (hch : c.input[c.cursor] = '\\')
    (hla : lookahead c 5 = some ['b', 'e', 'g', 'i', 'n'])
    (h : handleLatexBlock c = some c') :
    c.cursor < c'.cursor := by
  unfold handleLatexBlock at h
  obtain ⟨m, hm⟩ : ∃ m, c.input.length = m + 1 := ⟨c.input.length - 1, by omega⟩
  have hstep := blockLoop_succ_begin m { c with out := c.out ++ ['<', '!', '-', '-'] } 0
    hcur hch (by rw [lookahead_set_out]; exact hla) (by decide)
  rw [show ({ c with out := c.out ++ ['<', '!', '-', '-'] } : Conv).input.length = m + 1 from hm,
    hstep] at h
  have hle : c.cursor + 1 ≤ c'.cursor := blockLoop_mono _ _ _ _ h
  omega

theorem handleComments_cases (c : Conv) (r : Bool × Conv) (h : handleComments c = some r) :
    (r.1 = true → c.cursor < r.2.cursor) ∧ (r.1 = false → r.2 = c) := by
  simp only [handleComments] at h
  rcases hg : c.input[c.cursor]? with _ | ch
  · simp only [hg] at h
    exact Option.noConfusion h
  · simp only [hg] at h
    split at h
    · rcases hla : lookahead c 3 with _ | la
      · simp only [hla] at h
        exact Option.noConfusion h
      · simp only [hla] at h
        split at h
        · rcases hcl : commentLoop c.input.length c with _ | c1
          · simp only [hcl] at h
            exact Option.noConfusion h
          · simp only [hcl] at h
            cases h
            refine ⟨fun _ => ?_, fun hf => Bool.noConfusion hf⟩
            have := commentLoop_mono _ _ _ hcl
            show c.cursor < c1.cursor + 3
            omega
        · cases h
          exact ⟨fun ht => Bool.noConfusion ht, fun _ => rfl⟩
    · cases h
      exact ⟨fun ht => Bool.noConfusion ht, fun _ => rfl⟩

theorem handleCDATA_cases (c : Conv) (r : Bool × Conv) (h : handleCDATA c = some r) :
    (r.1 = true → c.cursor < r.2.cursor) ∧ (r.1 = false → r.2 = c) := by
  simp only [handleCDATA] at h
  rcases hg : c.input[c.cursor]? with _ | ch
  · simp only [hg] at h
    exact Option.noConfusion h
  · simp only [hg] at h
    split at h
    · rcases hla : lookahead c 8 with _ | la
      · simp only [hla] at h
        exact Option.noConfusion h
      · simp only [hla] at h
        split at h
        · rcases hcl : cdataLoop c.input.length c with _ | c1
          · simp only [hcl] at h
            exact Option.noConfusion h
          · simp only [hcl] at h
            cases h
            refine ⟨fun _ => ?_, fun hf => Bool.noConfusion hf⟩
            have := cdataLoop_mono _ _ _ hcl
            show c.cursor < c1.cursor + 3
            omega
        · cases h
          exact ⟨fun ht => Bool.noConfusion ht, fun _ => rfl⟩
    · cases h
      exact ⟨fun ht => Bool.noConfusion ht, fun _ => rfl⟩

theorem handleInlineMath_cases (c : Conv) (r : Bool × Conv) (h : handleInlineMath c = some r) :
    (r.1 = true → r.2.cursor = c.cursor + 2) ∧
    (r.1 = false → r.2.cursor = c.cursor ∧ r.2.input = c.input) := by
  simp only [handleInlineMath] at h
  rcases hg : c.input[c.cursor]? with _ | ch
  · simp only [hg] at h
    exact Option.noConfusion h
  · simp only [hg] at h
    split at h
    · rcases hn : c.input[c.cursor + 1]? with _ | nx
      · simp only [hn] at h
        exact Option.noConfusion h
      · simp only [hn] at h
        split at h
        · cases h
          exact ⟨fun _ => rfl, fun hf => Bool.noConfusion hf⟩
        · cases h
          exact ⟨fun ht => Bool.noConfusion ht, fun _ => ⟨rfl, rfl⟩⟩
    · split at h
      · split at h
        · cases h
          exact ⟨fun ht => Bool.noConfusion ht, fun _ => ⟨rfl, rfl⟩⟩
        · rcases hla : lookahead c 1 with _ | la
          · simp only [hla] at h
            exact Option.noConfusion h
          · simp only [hla] at h
            split at h
            · cases h
              exact ⟨fun ht => Bool.noConfusion ht, fun _ => ⟨rfl, rfl⟩⟩
            · cases h
              exact ⟨fun ht => Bool.noConfusion ht, fun _ => ⟨rfl, rfl⟩⟩
      · cases h
        exact ⟨fun ht => Bool.noConfusion ht, fun _ => ⟨rfl, rfl⟩⟩

theorem handleLatex_cases (c : Conv) (r : Bool × Conv) (h : handleLatex c = some r) :
    (r.1 = true → c.cursor < r.2.cursor) ∧ (r.1 = false → r.2 = c) := by
  simp only [handleLatex] at h
  split at h
  · cases h
    exact ⟨fun ht => Bool.noConfusion ht, fun _ => rfl⟩
  · rcases hg : c.input[c.cursor]? with _ | ch
    · simp only [hg] at h
      exact Option.noConfusion h
    · simp only [hg] at h
      split at h
      next hch =>
        rcases hn : c.input[c.cursor + 1]? with _ | nx
        · simp only [hn] at h
          exact Option.noConfusion h
        · simp only [hn] at h
          split at h
          · cases h
            exact ⟨fun ht => Bool.noConfusion ht, fun _ => rfl⟩
          · rcases hla : lookahead c 5 with _ | la5
            · simp only [hla] at h
              exact Option.noConfusion h
            · simp only [hla] at h
              split at h
              next hla5 =>
                rcases hb : handleLatexBlock c with _ | c1
                · simp only [hb] at h
                  exact Option.noConfusion h
                · simp only [hb] at h
                  cases h
                  obtain ⟨hlt, hv⟩ := List.getElem?_eq_some.mp hg
                  refine ⟨fun _ => ?_, fun hf => Bool.noConfusion hf⟩
                  exact handleLatexBlock_progress c c1 hlt (hv.trans hch)
                    (by rw [hla, hla5]) hb
              next hnotbegin =>
                cases h
                obtain ⟨hlt, hv⟩ := List.getElem?_eq_some.mp hg
                refine ⟨fun _ => ?_, fun hf => Bool.noConfusion hf⟩
                refine handleLatexCommand_progress c true hlt ?_ ?_ ?_ <;>
                  rw [hv, hch] <;> decide
      next hnb =>
        cases h
        exact ⟨fun ht => Bool.noConfusion ht, fun _ => rfl⟩

theorem convertStep_progress (c c' : Conv) (h : convertStep c = some c') :
    c.cursor < c'.cursor := by
  simp only [convertStep] at h
  rcases h1 : handleComments c with _ | ⟨_ | _, c0⟩
  · simp only [h1] at h
    exact Option.noConfusion h
  · -- handleComments returned (false, c0)
    simp only [h1] at h
    have hc0 : c0 = c := (handleComments_cases c _ h1).2 rfl
    rcases h2 : handleCDATA c0 with _ | ⟨_ | _, c1⟩
    · simp only [h2] at h
      exact Option.noConfusion h
    · -- handleCDATA returned (false, c1)
      simp only [h2] at h
      have hc1 : c1 = c0 := (handleCDATA_cases c0 _ h2).2 rfl
      rcases h3 : handleInlineMath c1 with _ | ⟨_ | _, c2⟩
      · simp only [h3] at h
        exact Option.noConfusion h
      · -- handleInlineMath returned (false, c2)
        simp only [h3] at h
        have hm := (handleInlineMath_cases c1 _ h3).2 rfl
        rcases h4 : handleLatex c2 with _ | ⟨_ | _, c3⟩
        · simp only [h4] at h
          exact Option.noConfusion h
        · -- handleLatex returned (false, c3): verbatim fallback
          simp only [h4] at h
          have hc3 : c3 = c2 := (handleLatex_cases c2 _ h4).2 rfl
          rcases h5 : c3.input[c3.cursor]? with _ | ch
          · simp only [h5] at h
            exact Option.noConfusion h
          · simp only [h5] at h
            cases h
            have e2 : c2.cursor = c.cursor := by rw [hm.1, hc1, hc0]
            show c.cursor < c3.cursor + 1
            rw [hc3, e2]
            omega
        · -- handleLatex claimed the position
          simp only [h4] at h
          cases h
          have h6 : c2.cursor < c'.cursor := (handleLatex_cases c2 _ h4).1 rfl
          have e2 : c2.cursor = c.cursor := by rw [hm.1, hc1, hc0]
          omega
      · -- handleInlineMath claimed the position
        simp only [h3] at h
        cases h
        have h6 : c'.cursor = c1.cursor + 2 := (handleInlineMath_cases c1 _ h3).1 rfl
        have e1 : c1.cursor = c.cursor := by rw [hc1, hc0]
        omega
    · -- handleCDATA claimed the position
      simp only [h2] at h
      cases h
      have := (handleCDATA_cases c0 _ h2).1 rfl
      rw [hc0] at this
      exact this
  · -- handleComments claimed the position
    simp only [h1] at h
    cases h
    exact (handleComments_cases c _ h1).1 rfl

theorem commentLoop_noterm : ∀ (fuel : Nat) (c : Conv),
    c.input.length ≤ c.cursor + fuel →
    c.cursor ≤ c.input.length →
    (∀ p, p < c.input.length → c.cursor ≤ p →
      ¬(c.input[p]? = some '-' ∧ c.input[p + 1]? = some '-' ∧ c.input[p + 2]? = some '>')) →
    (∀ p, p < c.input.length → c.cursor ≤ p → c.input[p]? = some '-' →
      p + 3 ≤ c.input.length) →
    commentLoop fuel c =
      some { c with out := c.out ++ c.input.drop c.cursor, cursor := c.input.length } := by
  intro fuel
  induction fuel with
  | zero =>
    intro c hfuel hle hnoterm hsafe
    have hcur : c.cursor = c.input.length := by omega
    simp only [commentLoop]
    rw [if_neg (by omega)]
    rcases c with ⟨inp, cur, m, o⟩
    simp only at hcur
    subst hcur
    simp
  | succ fuel ih =>
    intro c hfuel hle hnoterm hsafe
    by_cases hcur : c.cursor < c.input.length
    · simp only [commentLoop]
      rw [dif_pos hcur]
      have hrec := ih { c with out := c.out ++ [c.input[c.cursor]], cursor := c.cursor + 1 }
        (show c.input.length ≤ c.cursor + 1 + fuel by omega)
        (show c.cursor + 1 ≤ c.input.length by omega)
        (fun p hp hcp => hnoterm p hp (Nat.le_of_succ_le hcp))
        (fun p hp hcp hm => hsafe p hp (Nat.le_of_succ_le hcp) hm)
      by_cases hdash : c.input[c.cursor] = '-'
      · have hment : c.input[c.cursor]? = some '-' := by
          rw [List.getElem?_eq_getElem hcur, hdash]
        have h3 : c.cursor + 3 ≤ c.input.length := hsafe _ hcur (Nat.le_refl _) hment
        have hla : lookahead c 2 = some ((c.input.drop (c.cursor + 1)).take 2) := by
          simp only [lookahead]
          rw [if_pos (by omega)]
        have hne : ¬((c.input.drop (c.cursor + 1)).take 2 = ['-', '>']) := by
          intro heq
          rw [List.drop_eq_getElem_cons (show c.cursor + 1 < c.input.length by omega),
            List.drop_eq_getElem_cons (show c.cursor + 1 + 1 < c.input.length by omega)] at heq
          simp only [List.take_succ_cons, List.take_zero, List.cons.injEq, and_true] at heq
          refine hnoterm c.cursor hcur (Nat.le_refl _) ⟨hment, ?_, ?_⟩
          · rw [List.getElem?_eq_getElem (show c.cursor + 1 < c.input.length by omega)]
            rw [heq.1]
          · rw [List.getElem?_eq_getElem (show c.cursor + 2 < c.input.length by omega)]
            exact congrArg some heq.2
        rw [if_pos hdash]
        simp only [hla]
        rw [if_neg hne, hrec]
        rw [List.drop_eq_getElem_cons hcur]
        simp
      · rw [if_neg hdash, hrec]
        rw [List.drop_eq_getElem_cons hcur]
        simp
    · have hc : c.cursor = c.input.length := by omega
      simp only [commentLoop]
      rw [dif_neg (by omega)]
      rcases c with ⟨inp, cur, m, o⟩
      simp only at hc
      subst hc
      simp

theorem blockLoop_never_zero : ∀ (fuel : Nat) (c : Conv) (n : Int),
    c.input.length ≤ c.cursor + fuel →
    c.cursor ≤ c.input.length →
    (∀ p, p < c.input.length → c.cursor ≤ p → c.input[p]? = some '\\' →
      p + 6 ≤ c.input.length) →
    (∀ k, k < c.input.length - c.cursor → nestAt c.input c.cursor n (k + 1) ≠ 0) →
    blockLoop fuel c n =
      some { c with out := c.out ++ c.input.drop c.cursor, cursor := c.input.length } := by
  intro fuel
  induction fuel with
  | zero =>
    intro c n hfuel hle hsafe hnz
    simp only [blockLoop]
    rw [if_neg (by omega)]
    have hc : c.cursor = c.input.length := by omega
    rcases c with ⟨inp, cur, m, o⟩
    simp only at hc
    subst hc
    simp
  | succ fuel ih =>
    intro c n hfuel hle hsafe hnz
    by_cases hcur : c.cursor < c.input.length
    · have hq : c.input[c.cursor]? = some (c.input[c.cursor]) := List.getElem?_eq_getElem hcur
      have hnz0 : stepNest c.input c.cursor n ≠ 0 := hnz 0 (by omega)
      have hrec := ih { c with out := c.out ++ [c.input[c.cursor]], cursor := c.cursor + 1 }
        (stepNest c.input c.cursor n)
        (show c.input.length ≤ c.cursor + 1 + fuel by omega)
        (show c.cursor + 1 ≤ c.input.length by omega)
        (fun p hp hcp hm => hsafe p hp (Nat.le_of_succ_le hcp) hm)
        (fun k hk => hnz (k + 1) (by
          have hk2 : k < c.input.length - (c.cursor + 1) := hk
          omega))
      rw [List.drop_eq_getElem_cons hcur]
      by_cases hbs : c.input[c.cursor] = '\\'
      · have h6 : c.cursor + 6 ≤ c.input.length :=
          hsafe _ hcur (Nat.le_refl _) (by rw [hq, hbs])
        have hla5 : lookahead c 5 = some ((c.input.drop (c.cursor + 1)).take 5) := by
          simp only [lookahead]
          rw [if_pos (by omega)]
        have hla3 : lookahead c 3 = some ((c.input.drop (c.cursor + 1)).take 3) := by
          simp only [lookahead]
          rw [if_pos (by omega)]
        rw [hbs] at hrec
        by_cases hbeg : (c.input.drop (c.cursor + 1)).take 5 = ['b', 'e', 'g', 'i', 'n']
        · have hsn : stepNest c.input c.cursor n = n + 1 := by
            rw [stepNest, if_pos (by rw [hq, hbs]), if_pos hbeg]
          rw [hsn] at hrec hnz0
          simp [blockLoop, hcur, hbs, hla5, hbeg, hnz0, hrec]
        · by_cases hend : (c.input.drop (c.cursor + 1)).take 3 = ['e', 'n', 'd']
          · have hsn : stepNest c.input c.cursor n = n - 1 := by
              rw [stepNest, if_pos (by rw [hq, hbs]), if_neg hbeg, if_pos hend]
            rw [hsn] at hrec hnz0
            simp [blockLoop, hcur, hbs, hla5, hla3, hbeg, hend, hnz0, hrec]
          · have hsn : stepNest c.input c.cursor n = n := by
              rw [stepNest, if_pos (by rw [hq, hbs]), if_neg hbeg, if_neg hend]
            rw [hsn] at hrec hnz0
            simp [blockLoop, hcur, hbs, hla5, hla3, hbeg, hend, hnz0, hrec]
      · have hsn : stepNest c.input c.cursor n = n := by
          rw [stepNest, if_neg (by rw [hq]; simp [hbs])]
        rw [hsn] at hrec hnz0
        simp [blockLoop, hcur, hbs, hnz0, hrec]
    · simp only [blockLoop]
      rw [dif_neg hcur]
      have hc : c.cursor = c.input.length := by omega
      rcases c with ⟨inp, cur, m, o⟩
      simp only at hc
      subst hc
      simp

theorem lookahead_cons_head (c : Conv) (n : Nat) (x : Char) (rest : List Char)
    (h : lookahead c n = some (x :: rest)) : c.input[c.cursor + 1]? = some x := by
  simp only [lookahead] at h
  split at h
  · rename_i hle
    injection h with h2
    rcases n with _ | m
    · simp at h2
    · have hlt : c.cursor + 1 < c.input.length := by omega
      rw [List.drop_eq_getElem_cons hlt, List.take_succ_cons] at h2
      rw [List.getElem?_eq_getElem hlt]
      injection h2 with h3 _
      rw [h3]
  · exact Option.noConfusion h

theorem commentLoop_flag : ∀ (fuel : Nat) (inp : List Char) (cur : Nat) (b : Bool)
    (o : List Char),
    commentLoop fuel (Conv.mk inp cur b o) =
      (commentLoop fuel (Conv.mk inp cur false o)).map
        (fun c' => Conv.mk c'.input c'.cursor b c'.out) := by
  intro fuel
  induction fuel with
  | zero =>
    intro inp cur b o
    by_cases h : cur < inp.length <;> simp [commentLoop, h]
  | succ fuel ih =>
    intro inp cur b o
    by_cases hcur : cur < inp.length
    · have hih := ih inp (cur + 1) b (o ++ [inp[cur]])
      by_cases hdash : inp[cur] = '-'
      · by_cases hlook : cur + 1 + 2 ≤ inp.length
        · by_cases hterm : (inp.drop (cur + 1)).take 2 = ['-', '>']
          · simp [commentLoop, hcur, hdash, lookahead, hlook, hterm]
          · rw [hdash] at hih
            simp [commentLoop, hcur, hdash, lookahead, hlook, hterm, hih]
        · simp [commentLoop, hcur, hdash, lookahead, hlook]
      · simp [commentLoop, hcur, hdash, hih]
    · simp [commentLoop, hcur]

theorem cdataLoop_flag : ∀ (fuel : Nat) (inp : List Char) (cur : Nat) (b : Bool)
    (o : List Char),
    cdataLoop fuel (Conv.mk inp cur b o) =
      (cdataLoop fuel (Conv.mk inp cur false o)).map
        (fun c' => Conv.mk c'.input c'.cursor b c'.out) := by
  intro fuel
  induction fuel with
  | zero =>
    intro inp cur b o
    by_cases h : cur < inp.length <;> simp [cdataLoop, h]
  | succ fuel ih =>
    intro inp cur b o
    by_cases hcur : cur < inp.length
    · have hih := ih inp (cur + 1) b o
      by_cases hbr : inp[cur] = ']'
      · by_cases hlook : cur + 1 + 2 ≤ inp.length
        · by_cases hterm : (inp.drop (cur + 1)).take 2 = [']', '>']
          · simp [cdataLoop, hcur, hbr, lookahead, hlook, hterm]
          · simp [cdataLoop, hcur, hbr, lookahead, hlook, hterm, hih]
        · simp [cdataLoop, hcur, hbr, lookahead, hlook]
      · simp [cdataLoop, hcur, hbr, hih]
    · simp [cdataLoop, hcur]

theorem handleComments_flag (inp : List Char) (cur : Nat) (b : Bool) (o : List Char) :
    handleComments (Conv.mk inp cur b o) =
      (handleComments (Conv.mk inp cur false o)).map
        (fun r => (r.1, Conv.mk r.2.input r.2.cursor b r.2.out)) := by
  have hflag := commentLoop_flag inp.length inp cur b o
  rcases hg : inp[cur]? with _ | ch
  · simp [handleComments, hg]
  · by_cases hch : ch = '<'
    · by_cases hlook : cur + 1 + 3 ≤ inp.length
      · by_cases hla : (inp.drop (cur + 1)).take 3 = ['!', '-', '-']
        · rcases hcl : commentLoop inp.length (Conv.mk inp cur false o) with _ | c1 <;>
            rw [hcl] at hflag <;>
            simp [handleComments, hg, hch, lookahead, hlook, hla, hflag, hcl]
        · simp [handleComments, hg, hch, lookahead, hlook, hla]
      · simp [handleComments, hg, hch, lookahead, hlook]
    · simp [handleComments, hg, hch]

theorem handleCDATA_flag (inp : List Char) (cur : Nat) (b : Bool) (o : List Char) :
    handleCDATA (Conv.mk inp cur b o) =
      (handleCDATA (Conv.mk inp cur false o)).map
        (fun r => (r.1, Conv.mk r.2.input r.2.cursor b r.2.out)) := by
  have hflag := cdataLoop_flag inp.length inp cur b o
  rcases hg : inp[cur]? with _ | ch
  · simp [handleCDATA, hg]
  · by_cases hch : ch = '<'
    · by_cases hlook : cur + 1 + 8 ≤ inp.length
      · by_cases hla : (inp.drop (cur + 1)).take 8 = ['!', '[', 'C', 'D', 'A', 'T', 'A', '[']
        · rcases hcl : cdataLoop inp.length (Conv.mk inp cur false o) with _ | c1 <;>
            rw [hcl] at hflag <;>
            simp [handleCDATA, hg, hch, lookahead, hlook, hla, hflag, hcl]
        · simp [handleCDATA, hg, hch, lookahead, hlook, hla]
      · simp [handleCDATA, hg, hch, lookahead, hlook]
    · simp [handleCDATA, hg, hch]


/-! ## Claim theorems -/

/-- C1: the claim says the conversion runs to completion and returns an
output without raising any error for every input.  The code violates this:
for the one-code-point input `\`, `handleInlineMath` evaluates `next()`
(`c.in[c.cursor+1]`), which is out of bounds, so the Go program panics —
modelled here as the result `none`.  The input `a$` likewise panics in
`lookahead(1)`. -/
theorem sxmd_panics_on_trailing_backslash :
    convertStep (ByteArrayToConverter ['\\']) = none ∧
    SXMD ['\\'] = none ∧
    SXMD ['a', '$'] = none := by decide

/-- C2 counterexample: for the input `\\begin{a}` the output is not the
input (the claim asserts the output equals the input with no `<!--`
emitted). -/
theorem double_backslash_cex :
    SXMD ( "\\\\begin{a}".toList) ≠ some ( "\\\\begin{a}".toList) := by decide

/-- C2 (amended): for the input `\\begin{a}`, the first `\` is copied as
plain text (the recognizer's entry condition excludes it because its next
code point is also `\`), but on the next iteration the cursor stands on the
second `\`, whose next code point is `b`, so the recognizer does fire and
block rewriting is triggered there: the output is `\<!--\begin{a}` (with an
unclosed comment, since no `\end` follows). -/
theorem double_backslash_triggers_at_second :
    SXMD ( "\\\\begin{a}".toList) = some ( "\\<!--\\begin{a}".toList) := by decide

/-- C3 counterexample: a `$` at position 0 followed by non-whitespace does
not enter math mode (the flag stays `false` after the dispatch step); a `$`
preceded by a tab does not enter math mode either; and a `$` preceded by a
space enters math mode even though the next code point is a space
(the claim requires a following non-whitespace code point). -/
theorem math_entry_cex :
    (convertStep (ByteArrayToConverter ['$', 'x'])).map Conv.inInlineMath = some false ∧
    (handleInlineMath (Conv.mk ['a', '\t', '$', 'x'] 2 false ['a', '\t'])).map
      (fun r => r.2.inInlineMath) = some false ∧
    (handleInlineMath (Conv.mk ['a', ' ', '$', ' ', 'b'] 2 false ['a', ' '])).map
      (fun r => r.2.inInlineMath) = some true := by decide

/-- C3 (amended): when the flag is off and `handleInlineMath` returns
without a panic, the flag is flipped to true exactly when the cursor stands
on a `$` at a position strictly greater than 0 whose immediately preceding
code point is a space (U+0020).  Position 0 never enters math mode, a tab
or newline before the `$` does not count, and the following code point is
not inspected for entry. -/
theorem inline_math_entry_iff (c : Conv) (r : Bool × Conv)
    (hflag : c.inInlineMath = false) (h : handleInlineMath c = some r) :
    r.2.inInlineMath = true ↔
      (c.input[c.cursor]? = some '$' ∧ 0 < c.cursor ∧
        c.input[c.cursor - 1]? = some ' ') := by
  simp only [handleInlineMath] at h
  rcases hg : c.input[c.cursor]? with _ | ch
  · simp only [hg] at h
    exact Option.noConfusion h
  · simp only [hg] at h
    split at h
    next hbs =>
      rcases hn : c.input[c.cursor + 1]? with _ | nx
      · simp only [hn] at h
        exact Option.noConfusion h
      · simp only [hn] at h
        split at h
        · cases h
          refine iff_of_false ?_ ?_
          · show ¬(c.inInlineMath = true)
            rw [hflag]
            decide
          · rintro ⟨h1, -, -⟩
            injection h1 with h1
            rw [hbs] at h1
            exact absurd h1 (by decide)
        · cases h
          refine iff_of_false ?_ ?_
          · show ¬(c.inInlineMath = true)
            rw [hflag]
            decide
          · rintro ⟨h1, -, -⟩
            injection h1 with h1
            rw [hbs] at h1
            exact absurd h1 (by decide)
    next hbs =>
      split at h
      next hd =>
        split at h
        next hcond =>
          cases h
          refine iff_of_true rfl ⟨?_, hcond.1, hcond.2.1⟩
          rw [hd]
        next hcond =>
          rcases hla : lookahead c 1 with _ | la
          · simp only [hla] at h
            exact Option.noConfusion h
          · simp only [hla] at h
            split at h
            next hcond2 =>
              exact absurd hcond2.2 (by rw [hflag]; decide)
            next hcond2 =>
              cases h
              refine iff_of_false (by rw [hflag]; decide) ?_
              rintro ⟨-, h1, h2⟩
              exact hcond ⟨h1, h2, hflag⟩
      next hd =>
        cases h
        refine iff_of_false (by rw [hflag]; decide) ?_
        rintro ⟨h1, -, -⟩
        injection h1 with h1
        exact hd h1

/-- C3 witness: instantiating the amended entry rule at the state with
input `" $x"` and cursor 1 (cursor on `$`, preceded by a space, flag off);
both sides of the equivalence hold. -/
theorem inline_math_entry_iff_witness :
    (Conv.mk [' ', '$', 'x'] 1 true []).inInlineMath = true ↔
      ((Conv.mk [' ', '$', 'x'] 1 false []).input[(1 : Nat)]? = some '$' ∧ 0 < 1 ∧
        (Conv.mk [' ', '$', 'x'] 1 false []).input[(0 : Nat)]? = some ' ') :=
  inline_math_entry_iff (Conv.mk [' ', '$', 'x'] 1 false [])
    (false, Conv.mk [' ', '$', 'x'] 1 true []) rfl (by decide)

/-- C4 counterexample: a CDATA section between a math-opening `$` and its
closing `$` is not passed through untouched — it is dropped by the CDATA
recognizer, so the span does not appear in the output at all. -/
theorem math_span_cdata_cex :
    SXMD ( "a $<![CDATA[x]]>$ b".toList) = some ( "a $$ b".toList) ∧
    hasSub ( "<![CDATA[x]]>".toList) ( "a $$ b".toList) = false := by decide

/-- C4 (amended): while the inline-math flag is true the LaTeX recognizer
never claims the cursor (a backslash in a math span is left alone), but the
comment and CDATA recognizers run before the math toggler and do not
consult the flag: for every state, their claim decision, cursor movement
and output are the same whatever the flag's value (the flag is merely
passed through).  Consequently a CDATA section inside an inline-math span
is still dropped, and an HTML comment inside an inline-math span is still
handled by the comment recognizer — for the math-span input `a $<!-- b$ c`
the comment recognizer claims the `<!--` and force-appends a `-->`
terminator, rather than the span being passed through untouched. -/
theorem math_mode_skips_latex :
    (∀ c : Conv, c.inInlineMath = true → handleLatex c = some (false, c)) ∧
    (∀ (inp : List Char) (cur : Nat) (b : Bool) (o : List Char),
      handleComments (Conv.mk inp cur b o) =
        (handleComments (Conv.mk inp cur false o)).map
          (fun r => (r.1, Conv.mk r.2.input r.2.cursor b r.2.out))) ∧
    (∀ (inp : List Char) (cur : Nat) (b : Bool) (o : List Char),
      handleCDATA (Conv.mk inp cur b o) =
        (handleCDATA (Conv.mk inp cur false o)).map
          (fun r => (r.1, Conv.mk r.2.input r.2.cursor b r.2.out))) ∧
    SXMD ( "a $<![CDATA[x]]>$ b".toList) = some ( "a $$ b".toList) ∧
    SXMD ( "a $<!-- b$ c".toList) = some ( "a $<!-- b$ c-->".toList) ∧
    handleComments (Conv.mk ( "a $<!-- b$ c".toList) 3 true ( "a $".toList)) =
      some (true, Conv.mk ( "a $<!-- b$ c".toList) 15 true ( "a $<!-- b$ c-->".toList)) := by
  refine ⟨?_, handleComments_flag, handleCDATA_flag, by decide, by decide, by decide⟩
  intro c h
  simp [handleLatex, h]

/-- C4 witness: a state whose flag is on; the LaTeX recognizer declines the
backslash under the cursor. -/
theorem math_mode_skips_latex_witness :
    handleLatex (Conv.mk ['\\'] 0 true []) = some (false, Conv.mk ['\\'] 0 true []) :=
  math_mode_skips_latex.1 (Conv.mk ['\\'] 0 true []) rfl

/-- C5: the nested block input `\begin{a}\begin{b}body\end{b}\end{a}` is
wrapped in exactly one pair of HTML comment markers. -/
theorem nested_block_wrapped_once :
    SXMD ( "\\begin{a}\\begin{b}body\\end{b}\\end{a}".toList) =
      some ( "<!--\\begin{a}\\begin{b}body\\end{b}\\end{a}-->".toList) := by decide

/-- C6: the content of a well-terminated HTML comment is copied verbatim,
even when it contains a LaTeX block opener and math delimiters. -/
theorem comment_content_invariant :
    SXMD ( "<!-- \\begin{a} $x$ -->".toList) =
      some ( "<!-- \\begin{a} $x$ -->".toList) := by decide

/-- C7: a CDATA section is removed together with its markers, and the
surrounding text is preserved unchanged. -/
theorem cdata_section_removed :
    SXMD ( "before<![CDATA[anything $ \\foo ]]>after".toList) =
      some ( "beforeafter".toList) := by decide

/-- C8 counterexample: for the input `<!--` the comment recognizer is
entered (the cursor is on `<` and the three following code points are
`!--`) and no `-->` occurs, but the copy loop does not stop at end of
input: it panics in `lookahead(2)` at the first `-` of the opener, so no
terminator is appended (the whole conversion panics). -/
theorem unterminated_comment_cex :
    (ByteArrayToConverter ( "<!--".toList)).input[(0 : Nat)]? = some '<' ∧
    lookahead (ByteArrayToConverter ( "<!--".toList)) 3 = some ['!', '-', '-'] ∧
    handleComments (ByteArrayToConverter ( "<!--".toList)) = none ∧
    SXMD ( "<!--".toList) = none := by decide

/-- C8 (amended): if the comment recognizer is entered, no `-->` terminator
occurs at or after the cursor, and additionally every `-` at or after the
cursor has at least two code points after it (so the loop's `lookahead(2)`
stays in bounds and the Go program does not panic), then the copy loop
stops at end of input, the three characters `-->` are still appended, and
the cursor is still advanced by 3 past the end of input. -/
theorem unterminated_comment_force_append (c : Conv)
    (hch : c.input[c.cursor]? = some '<')
    (hla : lookahead c 3 = some ['!', '-', '-'])
    (hnoterm : ∀ p, p < c.input.length → c.cursor ≤ p →
      ¬(c.input[p]? = some '-' ∧ c.input[p + 1]? = some '-' ∧ c.input[p + 2]? = some '>'))
    (hsafe : ∀ p, p < c.input.length → c.cursor ≤ p → c.input[p]? = some '-' →
      p + 3 ≤ c.input.length) :
    handleComments c = some (true,
      { c with out := (c.out ++ c.input.drop c.cursor) ++ ['-', '-', '>'],
               cursor := c.input.length + 3 }) := by
  obtain ⟨hlt, hv⟩ := List.getElem?_eq_some.mp hch
  have hloop := commentLoop_noterm c.input.length c (Nat.le_add_left _ _) (Nat.le_of_lt hlt)
    hnoterm hsafe
  simp [handleComments, hch, hla, hloop]

/-- C8 witness: the entered, unterminated and panic-free input `<!--xy`:
the output is `<!--xy-->` and the cursor ends at 9, three past the input
length 6. -/
theorem unterminated_comment_force_append_witness :
    handleComments (ByteArrayToConverter ( "<!--xy".toList)) =
      some (true, Conv.mk ( "<!--xy".toList) 9 false ( "<!--xy-->".toList)) :=
  (unterminated_comment_force_append (ByteArrayToConverter ( "<!--xy".toList))
    (by decide) (by decide) (by decide) (by decide)).trans (by decide)

/-- C9: each completed iteration of the dispatch loop strictly increases
the cursor, and no recognizer that returns (claiming or not) ever leaves
the cursor below its starting value. -/
theorem convert_cursor_monotone :
    (∀ c c' : Conv, convertStep c = some c' → c.cursor < c'.cursor) ∧
    (∀ (c : Conv) (r : Bool × Conv), handleComments c = some r → c.cursor ≤ r.2.cursor) ∧
    (∀ (c : Conv) (r : Bool × Conv), handleCDATA c = some r → c.cursor ≤ r.2.cursor) ∧
    (∀ (c : Conv) (r : Bool × Conv), handleInlineMath c = some r → c.cursor ≤ r.2.cursor) ∧
    (∀ (c : Conv) (r : Bool × Conv), handleLatex c = some r → c.cursor ≤ r.2.cursor) := by
  refine ⟨convertStep_progress, ?_, ?_, ?_, ?_⟩
  · intro c r h
    rcases r with ⟨b, c2⟩
    cases b
    · have e : c2 = c := (handleComments_cases c _ h).2 rfl
      subst e
      exact Nat.le_refl _
    · exact Nat.le_of_lt ((handleComments_cases c _ h).1 rfl)
  · intro c r h
    rcases r with ⟨b, c2⟩
    cases b
    · have e : c2 = c := (handleCDATA_cases c _ h).2 rfl
      subst e
      exact Nat.le_refl _
    · exact Nat.le_of_lt ((handleCDATA_cases c _ h).1 rfl)
  · intro c r h
    rcases r with ⟨b, c2⟩
    cases b
    · exact Nat.le_of_eq ((handleInlineMath_cases c _ h).2 rfl).1.symm
    · have e : c2.cursor = c.cursor + 2 := (handleInlineMath_cases c _ h).1 rfl
      show c.cursor ≤ c2.cursor
      omega
  · intro c r h
    rcases r with ⟨b, c2⟩
    cases b
    · have e : c2 = c := (handleLatex_cases c _ h).2 rfl
      subst e
      exact Nat.le_refl _
    · exact Nat.le_of_lt ((handleLatex_cases c _ h).1 rfl)

/-- C9 witness: one dispatch step on the input `a` advances the cursor from
0 to 1. -/
theorem convert_cursor_monotone_witness :
    (ByteArrayToConverter ['a']).cursor < (Conv.mk ['a'] 1 false ['a']).cursor :=
  convert_cursor_monotone.1 (ByteArrayToConverter ['a']) (Conv.mk ['a'] 1 false ['a'])
    (by decide)

/-- C10 counterexample: for the input `\begin{a}\x` the block rewriter is
entered and the nesting counter never returns to zero, but the rewriter does
not copy the remaining input up to end of input: it panics in
`lookahead(5)` at the final backslash (one code point before the end), so
the whole conversion panics. -/
theorem unterminated_block_cex :
    SXMD ( "\\begin{a}\\x".toList) = none ∧
    handleLatex (ByteArrayToConverter ( "\\begin{a}\\x".toList)) = none := by decide

/-- C10 (amended): if the block rewriter is entered (cursor on `\`,
lookahead `begin`, not in math mode), the nesting counter never returns to
zero, and additionally every `\` at or after the cursor has at least five
code points after it (so the loop's `lookahead(5)` stays in bounds and the
Go program does not panic), then the rewriter emits `<!--`, copies every
remaining code point verbatim, ends with the cursor at end of input, and
never emits the closing `-->`. -/
theorem unterminated_block_copies_all (c : Conv)
    (hmath : c.inInlineMath = false)
    (hch : c.input[c.cursor]? = some '\\')
    (hla : lookahead c 5 = some ['b', 'e', 'g', 'i', 'n'])
    (hsafe : ∀ p, p < c.input.length → c.cursor ≤ p → c.input[p]? = some '\\' →
      p + 6 ≤ c.input.length)
    (hnz : ∀ k, k < c.input.length - c.cursor → nestAt c.input c.cursor 0 (k + 1) ≠ 0) :
    handleLatex c = some (true,
      { c with out := (c.out ++ ['<', '!', '-', '-']) ++ c.input.drop c.cursor,
               cursor := c.input.length }) := by
  obtain ⟨hlt, hv⟩ := List.getElem?_eq_some.mp hch
  have hnx : c.input[c.cursor + 1]? = some 'b' := lookahead_cons_head c 5 'b' _ hla
  have hloop := blockLoop_never_zero c.input.length
    { c with out := c.out ++ ['<', '!', '-', '-'] } 0
    (Nat.le_add_left _ _) (Nat.le_of_lt hlt) hsafe hnz
  simp only [hmath] at hloop
  simp [handleLatex, hmath, hch, hnx, hla, handleLatexBlock, hloop]

/-- C10 witness: the input `\begin{a}` (no `\end`): the rewriter emits
`<!--\begin{a}` — the whole remaining input after the opening marker, no
closing marker — and stops with the cursor at the input length 9. -/
theorem unterminated_block_copies_all_witness :
    handleLatex (ByteArrayToConverter ( "\\begin{a}".toList)) =
      some (true, Conv.mk ( "\\begin{a}".toList) 9 false ( "<!--\\begin{a}".toList)) :=
  (unterminated_block_copies_all (ByteArrayToConverter ( "\\begin{a}".toList))
    (by decide) (by decide) (by decide) (by decide) (by decide)).trans (by decide)
